import Mathlib

/-!
Verification of the generation-and-filtering core of the Story.generator
repository. The definitions below are a shallow embedding of
`src/model_utils.py` (class `NextSentencePredictor`, function
`validate_input`) and of `src/app.py` (functions `load_model` and
`generate_stories`). Strings are modelled as `List Char`; the external
language model is modelled as an oracle `att : Nat → Option (List Char)`
giving, for each raw generation attempt, either the decoded text of that
attempt or `none` when the attempt raises an exception.
-/

namespace StoryGen

/-- Sentence-terminator characters of the segmentation regex `[.!?]+`. -/
def sentenceTerm (c : Char) : Bool := c == '.' || c == '!' || c == '?'

/-- Whitespace characters recognised by Python's `str.strip` / `str.split`. -/
def pySpace (c : Char) : Bool :=
  c == ' ' || c == '\t' || c == '\n' || c == '\r' || c == '\x0B' || c == '\x0C'

/-- Python `str.strip()`: remove leading and trailing whitespace. -/
def pyStrip (l : List Char) : List Char :=
  ((l.dropWhile pySpace).reverse.dropWhile pySpace).reverse

/-- Worker for `re.split(r'[.!?]+', text)`: segments between maximal runs of
sentence terminators; `inRun` records whether the previous character was a
terminator, `acc` holds the current segment reversed. -/
def splitTermRuns : Bool → List Char → List Char → List (List Char)
  | _, acc, [] => [acc.reverse]
  | inRun, acc, c :: cs =>
    if sentenceTerm c then
      if inRun then splitTermRuns true acc cs
      else acc.reverse :: splitTermRuns true [] cs
    else splitTermRuns false (c :: acc) cs

/-- Embedding of `re.split(r'[.!?]+', text)` from the source. -/
def reSplitSent (l : List Char) : List (List Char) := splitTermRuns false [] l

/-- Worker for Python `str.split()` (split on whitespace runs, no empties). -/
def pyWordsGo : List Char → List Char → List (List Char)
  | acc, [] => if acc.isEmpty then [] else [acc.reverse]
  | acc, c :: cs =>
    if pySpace c then
      if acc.isEmpty then pyWordsGo [] cs
      else acc.reverse :: pyWordsGo [] cs
    else pyWordsGo (c :: acc) cs

/-- Python `str.split()` with no arguments. -/
def pyWords (l : List Char) : List (List Char) := pyWordsGo [] l

/-- Python `str.isalpha()`: non-empty and every character alphabetic. -/
def pyIsAlpha (w : List Char) : Bool := !w.isEmpty && w.all Char.isAlpha

/-- Python `sep.join(chunks)`. -/
def joinSep (sep : List Char) : List (List Char) → List Char
  | [] => []
  | [w] => w
  | w :: ws => w ++ sep ++ joinSep sep ws

/-- Separator used by `' '.join(words)` in `clean_generated_text`. -/
def spaceSep : List Char := [' ']

/-- Separator used by `'. '.join(story_sentences)` in `generate_stories`. -/
def periodSep : List Char := ['.', ' ']

/-- Trailing-word repair of `clean_generated_text` (model_utils.py lines
64-69): drop the last word when it is shorter than 2 characters or not
purely alphabetic. -/
def repairWords (words : List (List Char)) : List (List Char) :=
  if (words.getLastD []).length < 2 || !(pyIsAlpha (words.getLastD [])) then
    words.dropLast
  else words

/-- Body of `clean_generated_text` after the prompt-removal step
(model_utils.py lines 57-73): split into sentences, keep the first segment
when it is non-blank, repair its trailing word and re-join with single
spaces; otherwise fall back to the whole stripped text. -/
def cleanCore (t : List Char) : List Char :=
  match reSplitSent t with
  | [] => pyStrip t
  | s0 :: _ =>
    if (pyStrip s0).isEmpty then pyStrip t
    else
      match pyWords (pyStrip s0) with
      | [] => pyStrip t
      | w :: ws => joinSep spaceSep (repairWords (w :: ws))

/-- Prompt-removal step of `clean_generated_text` (model_utils.py lines
53-55): strip the prompt from the front only on an exact prefix match. -/
def prefixHandled (text input_text : List Char) : List Char :=
  if List.isPrefixOf input_text text then pyStrip (text.drop input_text.length)
  else text

/-- Embedding of `NextSentencePredictor.clean_generated_text`. -/
def clean_generated_text (text input_text : List Char) : List Char :=
  cleanCore (prefixHandled text input_text)

/-- Whether the first `[.!?]+`-delimited segment of `t` is non-blank after
stripping, i.e. whether `clean_generated_text` takes its first-sentence
path rather than its fallback path. -/
def firstSegNonBlank (t : List Char) : Bool :=
  match reSplitSent t with
  | [] => false
  | s0 :: _ => !(pyStrip s0).isEmpty

/-- Acceptance filter of `generate_predictions` (model_utils.py lines
120-124): non-empty, at least 3 words, not already present, length at
least 10. -/
def acceptPred (predictions : List (List Char)) (p : List Char) : Bool :=
  !p.isEmpty && decide (3 ≤ (pyWords p).length) &&
    !(decide (p ∈ predictions)) && decide (10 ≤ p.length)

/-- One loop iteration of `generate_predictions`: clean the raw decoded
text and append it when accepted. -/
def stepPred (input_text : List Char) (acc : List (List Char))
    (raw : List Char) : List (List Char) :=
  let p := clean_generated_text raw input_text
  if acceptPred acc p then acc ++ [p] else acc

/-- Result of an over-generation loop: either the accepted list together
with the number of raw attempts consumed, or an exception raised at some
attempt (`used` counts the attempts consumed including the failing one). -/
inductive RunOutcome where
  | ok : List (List Char) → Nat → RunOutcome
  | err : Nat → RunOutcome
deriving DecidableEq

/-- Accepted candidates of an outcome (an exception yields none). -/
def RunOutcome.preds : RunOutcome → List (List Char)
  | RunOutcome.ok l _ => l
  | RunOutcome.err _ => []

/-- Number of raw generation attempts consumed by an outcome. -/
def RunOutcome.used : RunOutcome → Nat
  | RunOutcome.ok _ u => u
  | RunOutcome.err u => u

/-- The `for i in range(num_predictions * 2)` loop of
`generate_predictions` (model_utils.py lines 99-128): each iteration
consumes one oracle attempt; `none` models an exception escaping to the
enclosing `except`; the loop breaks as soon as enough candidates are
collected (the check runs at the end of each iteration). -/
def predLoop (input_text : List Char) (num : Nat)
    (att : Nat → Option (List Char)) : Nat → Nat → List (List Char) → RunOutcome
  | i, 0, acc => RunOutcome.ok acc i
  | i, fuel + 1, acc =>
    match att i with
    | none => RunOutcome.err (i + 1)
    | some raw =>
      let acc' := stepPred input_text acc raw
      if num ≤ acc'.length then RunOutcome.ok acc' (i + 1)
      else predLoop input_text num att (i + 1) fuel acc'

/-- The whole attempt loop of `generate_predictions`, starting from an
empty accepted list with a budget of `num * 2` attempts. -/
def runPredictions (input_text : List Char) (num : Nat)
    (att : Nat → Option (List Char)) : RunOutcome :=
  predLoop input_text num att 0 (num * 2) []

/-- The two model-handle fields of `NextSentencePredictor`; `none` models a
Python `None` left by a failed `load_model`. -/
structure Session where
  model : Option Unit
  tokenizer : Option Unit
deriving DecidableEq

/-- A session whose `load_model` succeeded. -/
def okSession : Session := ⟨some (), some ()⟩

/-- Embedding of `NextSentencePredictor.load_model` (model_utils.py lines
26-40): the tokenizer is fetched first, then the model; any fetch error is
caught and reported by returning `false`, leaving the failed handles at
`none`. -/
def load_model (fetchTokenizer fetchModel : Except Unit Unit) : Session × Bool :=
  match fetchTokenizer with
  | Except.error _ => (⟨none, none⟩, false)
  | Except.ok _ =>
    match fetchModel with
    | Except.error _ => (⟨none, some ()⟩, false)
    | Except.ok _ => (⟨some (), some ()⟩, true)

/-- Embedding of `NextSentencePredictor.generate_predictions`
(model_utils.py lines 75-134): guard on unloaded model, then the
`try`-wrapped encode plus attempt loop; `encodeOk = false` models
`tokenizer.encode` raising; any exception reaching the `except` yields
`[]`. -/
def generate_predictions (s : Session) (encodeOk : Bool)
    (input_text : List Char) (num : Nat)
    (att : Nat → Option (List Char)) : List (List Char) :=
  if s.model.isNone || s.tokenizer.isNone then []
  else if !encodeOk then []
  else
    match runPredictions input_text num att with
    | RunOutcome.ok preds _ => preds.take num
    | RunOutcome.err _ => []

/-- Number of raw sampling attempts `generate_predictions` performs. -/
def predAttemptsUsed (s : Session) (encodeOk : Bool)
    (input_text : List Char) (num : Nat)
    (att : Nat → Option (List Char)) : Nat :=
  if s.model.isNone || s.tokenizer.isNone then 0
  else if !encodeOk then 0
  else (runPredictions input_text num att).used

/-- Pure replay of the acceptance accumulation of `generate_predictions`:
the accepted list after the first `k` attempts, ignoring the early break;
`none` when one of those attempts raises. -/
def predAccumulate (input_text : List Char)
    (att : Nat → Option (List Char)) : Nat → Option (List (List Char))
  | 0 => some []
  | k + 1 =>
    match predAccumulate input_text att k with
    | none => none
    | some acc =>
      match att k with
      | none => none
      | some raw => some (stepPred input_text acc raw)

/-- Per-raw-completion filter of `generate_stories` (app.py lines 120-125)
applied to the prompt-stripped text: require at least 2 raw segments, keep
the non-empty stripped segments among the first 4, require at least 2 of
them, and re-join with `'. '` plus a trailing `'.'`. -/
def storyCore (new_text : List Char) : Option (List Char) :=
  let sentences := reSplitSent new_text
  if sentences.length < 2 then none
  else
    let story_sentences := ((sentences.take 4).map pyStrip).filter (fun s => !s.isEmpty)
    if story_sentences.length < 2 then none
    else some (joinSep periodSep story_sentences ++ ['.'])

/-- The segments `generate_stories` keeps: non-empty stripped segments
among the first 4 raw segments. -/
def keptSegments (t : List Char) : List (List Char) :=
  (((reSplitSent t).take 4).map pyStrip).filter (fun s => !s.isEmpty)

/-- Per-raw-completion filter of `generate_stories` including the prompt
removal of app.py line 117: the slice `generated_text[len(input_text):]`
is taken unconditionally (no `startswith` check). -/
def storyClean (raw input_text : List Char) : Option (List Char) :=
  storyCore (pyStrip (raw.drop input_text.length))

/-- One loop iteration of `generate_stories`: clean the raw decoded text
and append it when longer than 50 characters and not yet present
(app.py lines 126-127). -/
def stepStory (input_text : List Char) (acc : List (List Char))
    (raw : List Char) : List (List Char) :=
  match storyClean raw input_text with
  | none => acc
  | some story =>
    if (50 < story.length : Bool) && !(decide (story ∈ acc)) then acc ++ [story]
    else acc

/-- The `for i in range(num_stories * 2)` loop of `generate_stories`
(app.py lines 99-127); unlike `generate_predictions` it contains no break
statement, so absent an exception it always consumes its whole budget. -/
def storyLoop (input_text : List Char) (num : Nat)
    (att : Nat → Option (List Char)) : Nat → Nat → List (List Char) → RunOutcome
  | i, 0, acc => RunOutcome.ok acc i
  | i, fuel + 1, acc =>
    match att i with
    | none => RunOutcome.err (i + 1)
    | some raw => storyLoop input_text num att (i + 1) fuel (stepStory input_text acc raw)

/-- The whole attempt loop of `generate_stories`. -/
def runStories (input_text : List Char) (num : Nat)
    (att : Nat → Option (List Char)) : RunOutcome :=
  storyLoop input_text num att 0 (num * 2) []

/-- Embedding of `generate_stories` (app.py lines 90-133): the
`try`-wrapped encode plus attempt loop; the result is truncated to `num`
stories; any exception reaching the `except` yields `[]`. -/
def generate_stories (encodeOk : Bool) (input_text : List Char) (num : Nat)
    (att : Nat → Option (List Char)) : List (List Char) :=
  if !encodeOk then []
  else
    match runStories input_text num att with
    | RunOutcome.ok stories _ => stories.take num
    | RunOutcome.err _ => []

/-- Number of raw sampling attempts `generate_stories` performs. -/
def storyAttemptsUsed (encodeOk : Bool) (input_text : List Char) (num : Nat)
    (att : Nat → Option (List Char)) : Nat :=
  if !encodeOk then 0
  else (runStories input_text num att).used

/-- Pure replay of the acceptance accumulation of `generate_stories`. -/
def storyAccumulate (input_text : List Char)
    (att : Nat → Option (List Char)) : Nat → Option (List (List Char))
  | 0 => some []
  | k + 1 =>
    match storyAccumulate input_text att k with
    | none => none
    | some acc =>
      match att k with
      | none => none
      | some raw => some (stepStory input_text acc raw)

/-- Follows the spec's wording for claim C8: take up to the first 4
NON-EMPTY segments (of all segments, not merely the first 4 raw ones),
require at least 2, and re-join them. Written for comparison with
`storyCore`, which is the embedding of the source. -/
def storyCoreSpecC8 (new_text : List Char) : Option (List Char) :=
  let nonempty := ((reSplitSent new_text).map pyStrip).filter (fun s => !s.isEmpty)
  let kept := nonempty.take 4
  if kept.length < 2 then none
  else some (joinSep periodSep kept ++ ['.'])

/-- Message returned by `validate_input` for blank input. -/
def msgEmpty : List Char := "Input text cannot be empty".data

/-- Message returned by `validate_input` for too-short input. -/
def msgShort : List Char := "Input text is too short (minimum 3 characters)".data

/-- Message returned by `validate_input` for too-long input. -/
def msgLong : List Char := "Input text is too long (maximum 200 characters)".data

/-- Embedding of `validate_input` (model_utils.py lines 136-155). -/
def validate_input (text : List Char) : Bool × List Char :=
  if text.isEmpty || (pyStrip text).isEmpty then (false, msgEmpty)
  else if (pyStrip text).length < 3 then (false, msgShort)
  else if 200 < (pyStrip text).length then (false, msgLong)
  else (true, [])

/-! Concrete inputs used by the witnesses and counterexamples below. -/

/-- Prompt of the spec's worked scenario. -/
def promptStore : List Char := "I went to the store to".data

/-- Raw completion whose trailing first-sentence word is `br3ad`. -/
def rawBr3ad : List Char :=
  "I went to the store to buy milk and br3ad. Then I went home. It was raining.".data

/-- Raw completion whose trailing first-sentence word is `bread`. -/
def rawBread : List Char :=
  "I went to the store to buy milk and bread. Then I went home. It was raining.".data

/-- Expected cleaned text for `rawBr3ad`. -/
def resBr3ad : List Char := "buy milk and".data

/-- Expected cleaned text for `rawBread`. -/
def resBread : List Char := "buy milk and bread".data

/-- Decoded text whose first raw segment is empty. -/
def textC7 : List Char := "! buy milk and bread".data

/-- The first NON-EMPTY segment of `textC7`, cleaned per the claim. -/
def claimSegC7 : List Char := "buy milk and bread".data

/-- Prompt for the exception counterexample. -/
def inputStory : List Char := "The story".data

/-- Raw completion echoing `inputStory`. -/
def rawStory : List Char := "The story goes on and on forever".data

/-- Accepted candidate cleaned from `rawStory`. -/
def candStory : List Char := "goes on and on forever".data

/-- Oracle whose first attempt succeeds and whose later attempts raise. -/
def attFail : Nat → Option (List Char) := fun i => if i == 0 then some rawStory else none

/-- Oracle returning `rawStory` on every attempt. -/
def attRepeat : Nat → Option (List Char) := fun _ => some rawStory

/-- Prompt that is not echoed by `bangText`. -/
def promptHello : List Char := "Hello".data

/-- Decoded text starting with a sentence terminator. -/
def bangText : List Char := "! This is bad text! Really bad.".data

/-- Oracle returning `bangText` on every attempt. -/
def attBang : Nat → Option (List Char) := fun _ => some bangText

/-- Prompt that re-occurs at the head of its own continuation. -/
def promptThe : List Char := "The".data

/-- Raw completion echoing `promptThe` twice. -/
def rawThe : List Char := "TheThe cat ran home".data

/-- Accepted candidate cleaned from `rawThe`; it begins with `promptThe`. -/
def candThe : List Char := "The cat ran home".data

/-- Oracle returning `rawThe` on every attempt. -/
def attThe : Nat → Option (List Char) := fun _ => some rawThe

/-- Decoded text that does not start with `promptHello`. -/
def rawCats : List Char :=
  "Big cats sleep all day. Dogs bark at night. The end came fast.".data

/-- Story built by the source from `rawCats` after blindly dropping 5 characters. -/
def cutStory : List Char :=
  "ats sleep all day. Dogs bark at night. The end came fast.".data

/-- Story the claim predicts for `rawCats` (full decoded text unchanged). -/
def fullStory : List Char :=
  "Big cats sleep all day. Dogs bark at night. The end came fast.".data

/-- Prompt of the leading-empty-segment story counterexample. -/
def promptOnce : List Char := "Once".data

/-- Raw completion whose prompt-stripped text starts with a terminator. -/
def rawFourSegs : List Char := "Once. aa bb. cc dd. ee ff. gg hh".data

/-- Story the source builds from `rawFourSegs` (3 segments kept). -/
def keptThree : List Char := "aa bb. cc dd. ee ff.".data

/-- Story the claim predicts for `rawFourSegs` (4 non-empty segments kept). -/
def keptFour : List Char := "aa bb. cc dd. ee ff. gg hh.".data

/-- Prompt of the single-segment rejection scenario. -/
def promptNight : List Char := "It was".data

/-- Raw completion whose prompt-stripped text has one non-empty segment. -/
def rawOneSeg : List Char := "It was a dark and stormy night.".data

/-- Prompt of the no-early-stop counterexample. -/
def inputKing : List Char := "The king".data

/-- Raw completion accepted by the story filter on the very first attempt. -/
def rawKing : List Char :=
  "The king ruled the land wisely. The people loved him dearly. Peace lasted many years.".data

/-- Story cleaned from `rawKing`. -/
def storyKing : List Char :=
  "ruled the land wisely. The people loved him dearly. Peace lasted many years.".data

/-- Oracle returning `rawKing` on every attempt. -/
def attKing : Nat → Option (List Char) := fun _ => some rawKing

/-- Valid input of the validation scenario. -/
def goodText : List Char := "This is a good sentence".data

/-- Too-short input of the validation scenario. -/
def hiText : List Char := "Hi".data

/-- Too-long input of the validation scenario (`"A" * 250`). -/
def longAs : List Char := List.replicate 250 'A'

/-! Helper lemmas about the attempt loops. -/

theorem predLoop_used_le (input_text : List Char) (num : Nat)
    (att : Nat → Option (List Char)) :
    ∀ fuel i acc, (predLoop input_text num att i fuel acc).used ≤ i + fuel := by
  intro fuel
  induction fuel with
  | zero => intro i acc; simp only [predLoop, RunOutcome.used]; omega
  | succ f ih =>
    intro i acc
    simp only [predLoop]
    cases h : att i with
    | none => simp only [RunOutcome.used]; omega
    | some raw =>
      by_cases hnum : num ≤ (stepPred input_text acc raw).length
      · simp only [if_pos hnum, RunOutcome.used]; omega
      · simp only [if_neg hnum]
        have := ih (i + 1) (stepPred input_text acc raw)
        omega

theorem predLoop_replay (input_text : List Char) (num : Nat)
    (att : Nat → Option (List Char)) :
    ∀ fuel i acc res u, predAccumulate input_text att i = some acc →
      predLoop input_text num att i fuel acc = RunOutcome.ok res u →
      predAccumulate input_text att u = some res := by
  intro fuel
  induction fuel with
  | zero =>
    intro i acc res u h1 h2
    simp only [predLoop] at h2
    injection h2 with e1 e2
    subst e1; subst e2; exact h1
  | succ f ih =>
    intro i acc res u h1 h2
    simp only [predLoop] at h2
    cases h : att i with
    | none => rw [h] at h2; exact absurd h2 (by simp)
    | some raw =>
      rw [h] at h2
      simp only at h2
      have hstep : predAccumulate input_text att (i + 1) = some (stepPred input_text acc raw) := by
        simp [predAccumulate, h1, h]
      by_cases hnum : num ≤ (stepPred input_text acc raw).length
      · rw [if_pos hnum] at h2
        injection h2 with e1 e2
        subst e1; subst e2; exact hstep
      · rw [if_neg hnum] at h2
        exact ih (i + 1) (stepPred input_text acc raw) res u hstep h2

theorem predAccumulate_isSome_of_le (input_text : List Char)
    (att : Nat → Option (List Char)) :
    ∀ n m, m ≤ n → (predAccumulate input_text att n).isSome = true →
      (predAccumulate input_text att m).isSome = true := by
  intro n
  induction n with
  | zero =>
    intro m hm h
    have hm0 : m = 0 := Nat.le_zero.mp hm
    subst hm0; exact h
  | succ k ih =>
    intro m hm h
    rcases Nat.lt_or_ge m (k + 1) with hlt | hge
    · apply ih m (by omega)
      simp only [predAccumulate] at h
      cases hk : predAccumulate input_text att k with
      | none => rw [hk] at h; simp at h
      | some acc => simp [hk]
    · have : m = k + 1 := by omega
      subst this; exact h

theorem predAccumulate_succ_some (input_text : List Char)
    (att : Nat → Option (List Char)) (k : Nat) (acc1 : List (List Char))
    (h : predAccumulate input_text att (k + 1) = some acc1) :
    ∃ acc raw, predAccumulate input_text att k = some acc ∧ att k = some raw ∧
      acc1 = stepPred input_text acc raw := by
  simp only [predAccumulate] at h
  cases hk : predAccumulate input_text att k with
  | none => rw [hk] at h; exact absurd h (by simp)
  | some acc =>
    rw [hk] at h
    cases ha : att k with
    | none => rw [ha] at h; exact absurd h (by simp)
    | some raw =>
      rw [ha] at h
      injection h with h
      exact ⟨acc, raw, rfl, rfl, h.symm⟩

theorem predLoop_earlystop (input_text : List Char) (num : Nat)
    (att : Nat → Option (List Char)) :
    ∀ k fuel i acc acc', predAccumulate input_text att i = some acc →
      acc.length < num →
      predAccumulate input_text att (i + k) = some acc' →
      num ≤ acc'.length →
      (predLoop input_text num att i fuel acc).used ≤ i + k := by
  intro k
  induction k with
  | zero =>
    intro fuel i acc acc' h1 h2 h3 h4
    rw [Nat.add_zero, h1] at h3
    injection h3 with h3
    subst h3; omega
  | succ k ih =>
    intro fuel i acc acc' h1 h2 h3 h4
    have hs : (predAccumulate input_text att (i + 1)).isSome = true := by
      apply predAccumulate_isSome_of_le input_text att (i + (k + 1)) (i + 1) (by omega)
      simp [h3]
    obtain ⟨acc1, hacc1⟩ := Option.isSome_iff_exists.mp hs
    obtain ⟨acc0, raw, hacc0, hatt, hstep⟩ :=
      predAccumulate_succ_some input_text att i acc1 hacc1
    rw [h1] at hacc0
    injection hacc0 with hacc0
    rw [← hacc0] at hstep
    cases fuel with
    | zero => simp only [predLoop, RunOutcome.used]; omega
    | succ f =>
      simp only [predLoop, hatt]
      by_cases hnum : num ≤ (stepPred input_text acc raw).length
      · simp only [if_pos hnum, RunOutcome.used]; omega
      · simp only [if_neg hnum]
        have h3' : predAccumulate input_text att ((i + 1) + k) = some acc' := by
          rw [show (i + 1) + k = i + (k + 1) by omega]
          exact h3
        have := ih f (i + 1) (stepPred input_text acc raw) acc'
          (hstep ▸ hacc1) (by omega) h3' h4
        omega

theorem storyLoop_used_le (input_text : List Char) (num : Nat)
    (att : Nat → Option (List Char)) :
    ∀ fuel i acc, (storyLoop input_text num att i fuel acc).used ≤ i + fuel := by
  intro fuel
  induction fuel with
  | zero => intro i acc; simp only [storyLoop, RunOutcome.used]; omega
  | succ f ih =>
    intro i acc
    simp only [storyLoop]
    cases h : att i with
    | none => simp only [RunOutcome.used]; omega
    | some raw =>
      show (storyLoop input_text num att (i + 1) f (stepStory input_text acc raw)).used ≤
        i + (f + 1)
      have := ih (i + 1) (stepStory input_text acc raw)
      omega

theorem storyLoop_ok_used (input_text : List Char) (num : Nat)
    (att : Nat → Option (List Char)) :
    ∀ fuel i acc res u, storyLoop input_text num att i fuel acc = RunOutcome.ok res u →
      u = i + fuel := by
  intro fuel
  induction fuel with
  | zero =>
    intro i acc res u h
    simp only [storyLoop] at h
    injection h with e1 e2
    omega
  | succ f ih =>
    intro i acc res u h
    simp only [storyLoop] at h
    cases ha : att i with
    | none => rw [ha] at h; exact absurd h (by simp)
    | some raw =>
      rw [ha] at h
      have := ih (i + 1) (stepStory input_text acc raw) res u h
      omega

theorem storyLoop_replay (input_text : List Char) (num : Nat)
    (att : Nat → Option (List Char)) :
    ∀ fuel i acc res u, storyAccumulate input_text att i = some acc →
      storyLoop input_text num att i fuel acc = RunOutcome.ok res u →
      storyAccumulate input_text att u = some res := by
  intro fuel
  induction fuel with
  | zero =>
    intro i acc res u h1 h2
    simp only [storyLoop] at h2
    injection h2 with e1 e2
    subst e1; subst e2; exact h1
  | succ f ih =>
    intro i acc res u h1 h2
    simp only [storyLoop] at h2
    cases ha : att i with
    | none => rw [ha] at h2; exact absurd h2 (by simp)
    | some raw =>
      rw [ha] at h2
      have hstep : storyAccumulate input_text att (i + 1) = some (stepStory input_text acc raw) := by
        simp [storyAccumulate, h1, ha]
      exact ih (i + 1) (stepStory input_text acc raw) res u hstep h2

/-! Helper lemmas about duplicate-freedom. -/

theorem nodup_append_one {a : List Char} {l : List (List Char)}
    (h : a ∉ l) (h2 : l.Nodup) : (l ++ [a]).Nodup := by
  simp [List.nodup_append, h, h2]

theorem stepPred_nodup (input_text : List Char) (acc : List (List Char))
    (raw : List Char) (h : acc.Nodup) : (stepPred input_text acc raw).Nodup := by
  unfold stepPred
  by_cases hA : acceptPred acc (clean_generated_text raw input_text) = true
  · rw [if_pos hA]
    simp only [acceptPred, Bool.and_eq_true, Bool.not_eq_true', decide_eq_false_iff_not] at hA
    exact nodup_append_one hA.1.2 h
  · rw [if_neg hA]; exact h

theorem stepStory_nodup (input_text : List Char) (acc : List (List Char))
    (raw : List Char) (h : acc.Nodup) : (stepStory input_text acc raw).Nodup := by
  unfold stepStory
  cases hc : storyClean raw input_text with
  | none => exact h
  | some story =>
    show (if (decide (50 < story.length) && !decide (story ∈ acc)) = true then
        acc ++ [story] else acc).Nodup
    by_cases hA : (decide (50 < story.length) && !decide (story ∈ acc)) = true
    · rw [if_pos hA]
      simp only [Bool.and_eq_true, Bool.not_eq_true', decide_eq_false_iff_not] at hA
      exact nodup_append_one hA.2 h
    · rw [if_neg hA]; exact h

theorem predLoop_nodup (input_text : List Char) (num : Nat)
    (att : Nat → Option (List Char)) :
    ∀ fuel i acc, acc.Nodup → ((predLoop input_text num att i fuel acc).preds).Nodup := by
  intro fuel
  induction fuel with
  | zero => intro i acc h; simpa [predLoop, RunOutcome.preds] using h
  | succ f ih =>
    intro i acc h
    simp only [predLoop]
    cases ha : att i with
    | none => simp [RunOutcome.preds]
    | some raw =>
      by_cases hnum : num ≤ (stepPred input_text acc raw).length
      · simpa [hnum, RunOutcome.preds] using stepPred_nodup input_text acc raw h
      · simp only [if_neg hnum]
        exact ih (i + 1) (stepPred input_text acc raw) (stepPred_nodup input_text acc raw h)

theorem storyLoop_nodup (input_text : List Char) (num : Nat)
    (att : Nat → Option (List Char)) :
    ∀ fuel i acc, acc.Nodup → ((storyLoop input_text num att i fuel acc).preds).Nodup := by
  intro fuel
  induction fuel with
  | zero => intro i acc h; simpa [storyLoop, RunOutcome.preds] using h
  | succ f ih =>
    intro i acc h
    simp only [storyLoop]
    cases ha : att i with
    | none => simp [RunOutcome.preds]
    | some raw =>
      exact ih (i + 1) (stepStory input_text acc raw) (stepStory_nodup input_text acc raw h)

/-! Helper lemmas tracking characters through the single-sentence filter. -/

theorem splitTermRuns_mem_false :
    ∀ (l : List Char) (inRun : Bool) (acc : List Char) (s : List Char) (c : Char),
      s ∈ splitTermRuns inRun acc l → c ∈ s → c ∈ acc ∨ sentenceTerm c = false := by
  intro l
  induction l with
  | nil =>
    intro inRun acc s c hs hc
    simp only [splitTermRuns, List.mem_singleton] at hs
    subst hs
    exact Or.inl (List.mem_reverse.mp hc)
  | cons a as ih =>
    intro inRun acc s c hs hc
    by_cases ha : sentenceTerm a = true
    · cases inRun with
      | true =>
        simp only [splitTermRuns, if_pos ha, if_true] at hs
        exact ih true acc s c hs hc
      | false =>
        simp only [splitTermRuns, if_pos ha, if_false] at hs
        rcases List.mem_cons.mp hs with h1 | h2
        · subst h1; exact Or.inl (List.mem_reverse.mp hc)
        · rcases ih true [] s c h2 hc with h3 | h3
          · simp at h3
          · exact Or.inr h3
    · simp only [splitTermRuns, if_neg ha] at hs
      rcases ih false (a :: acc) s c hs hc with h1 | h1
      · rcases List.mem_cons.mp h1 with h2 | h2
        · subst h2
          exact Or.inr (by simpa using ha)
        · exact Or.inl h2
      · exact Or.inr h1

theorem mem_pyStrip (l : List Char) (c : Char) (h : c ∈ pyStrip l) : c ∈ l := by
  unfold pyStrip at h
  rw [List.mem_reverse] at h
  have h2 := (List.dropWhile_sublist pySpace).subset h
  rw [List.mem_reverse] at h2
  exact (List.dropWhile_sublist pySpace).subset h2

theorem mem_pyWordsGo :
    ∀ (l acc : List Char) (w : List Char) (c : Char),
      w ∈ pyWordsGo acc l → c ∈ w → c ∈ acc ∨ c ∈ l := by
  intro l
  induction l with
  | nil =>
    intro acc w c hw hc
    by_cases hacc : acc.isEmpty = true
    · simp [pyWordsGo, hacc] at hw
    · simp only [pyWordsGo, if_neg hacc, List.mem_singleton] at hw
      subst hw
      exact Or.inl (List.mem_reverse.mp hc)
  | cons a as ih =>
    intro acc w c hw hc
    by_cases ha : pySpace a = true
    · by_cases hacc : acc.isEmpty = true
      · simp only [pyWordsGo, if_pos ha, if_pos hacc] at hw
        rcases ih [] w c hw hc with h | h
        · simp at h
        · exact Or.inr (List.mem_cons_of_mem a h)
      · simp only [pyWordsGo, if_pos ha, if_neg hacc] at hw
        rcases List.mem_cons.mp hw with h | h
        · subst h
          exact Or.inl (List.mem_reverse.mp hc)
        · rcases ih [] w c h hc with h2 | h2
          · simp at h2
          · exact Or.inr (List.mem_cons_of_mem a h2)
    · simp only [pyWordsGo, if_neg ha] at hw
      rcases ih (a :: acc) w c hw hc with h | h
      · rcases List.mem_cons.mp h with h2 | h2
        · subst h2
          exact Or.inr (List.mem_cons_self c as)
        · exact Or.inl h2
      · exact Or.inr (List.mem_cons_of_mem a h)

theorem mem_pyWords (l : List Char) (w : List Char) (c : Char)
    (hw : w ∈ pyWords l) (hc : c ∈ w) : c ∈ l := by
  rcases mem_pyWordsGo l [] w c hw hc with h | h
  · simp at h
  · exact h

theorem mem_joinSep (sep : List Char) :
    ∀ (ws : List (List Char)) (c : Char), c ∈ joinSep sep ws →
      c ∈ sep ∨ ∃ w, w ∈ ws ∧ c ∈ w := by
  intro ws
  induction ws with
  | nil => intro c hc; simp [joinSep] at hc
  | cons w rest ih =>
    intro c hc
    cases rest with
    | nil =>
      simp only [joinSep] at hc
      exact Or.inr ⟨w, List.mem_singleton_self w, hc⟩
    | cons w2 rest2 =>
      simp only [joinSep, List.mem_append] at hc
      rcases hc with (h | h) | h
      · exact Or.inr ⟨w, List.mem_cons_self w (w2 :: rest2), h⟩
      · exact Or.inl h
      · rcases ih c h with h2 | ⟨wx, hwx, hcx⟩
        · exact Or.inl h2
        · exact Or.inr ⟨wx, List.mem_cons_of_mem w hwx, hcx⟩

theorem mem_repairWords (words : List (List Char)) (w : List Char)
    (h : w ∈ repairWords words) : w ∈ words := by
  unfold repairWords at h
  split at h
  · exact (List.dropLast_sublist words).subset h
  · exact h

theorem dropWhile_head_false (p : Char → Bool) :
    ∀ (l : List Char) (c : Char) (rest : List Char),
      l.dropWhile p = c :: rest → p c = false := by
  intro l
  induction l with
  | nil => intro c rest h; simp [List.dropWhile] at h
  | cons a as ih =>
    intro c rest h
    rw [List.dropWhile_cons] at h
    by_cases hp : p a = true
    · rw [if_pos hp] at h
      exact ih c rest h
    · rw [if_neg hp] at h
      injection h with h1 h2
      subst h1
      simpa using hp

theorem dropWhile_append_eq (p : Char → Bool) :
    ∀ l : List Char, ∃ t, t ++ l.dropWhile p = l := by
  intro l
  induction l with
  | nil => exact ⟨[], rfl⟩
  | cons a as ih =>
    by_cases hp : p a = true
    · obtain ⟨t, ht⟩ := ih
      refine ⟨a :: t, ?_⟩
      rw [List.dropWhile_cons, if_pos hp]
      simp [ht]
    · refine ⟨[], ?_⟩
      rw [List.dropWhile_cons, if_neg hp]
      rfl

theorem pyStrip_head_not_space (l : List Char) (c : Char) (rest : List Char)
    (h : pyStrip l = c :: rest) : pySpace c = false := by
  unfold pyStrip at h
  obtain ⟨t, ht⟩ := dropWhile_append_eq pySpace (l.dropWhile pySpace).reverse
  have hrev := congrArg List.reverse ht
  rw [List.reverse_append, List.reverse_reverse] at hrev
  rw [h] at hrev
  have hdw : l.dropWhile pySpace = c :: (rest ++ t.reverse) := by
    rw [← hrev]
    simp [List.cons_append]
  exact dropWhile_head_false pySpace l c (rest ++ t.reverse) hdw

theorem pyWordsGo_ne_nil : ∀ (l acc : List Char), acc ≠ [] → pyWordsGo acc l ≠ [] := by
  intro l
  induction l with
  | nil =>
    intro acc hacc
    have he : acc.isEmpty = false := by
      cases acc with
      | nil => exact absurd rfl hacc
      | cons x xs => rfl
    simp [pyWordsGo, he]
  | cons a as ih =>
    intro acc hacc
    by_cases ha : pySpace a = true
    · have he : acc.isEmpty = false := by
        cases acc with
        | nil => exact absurd rfl hacc
        | cons x xs => rfl
      simp [pyWordsGo, ha, he]
    · simp only [pyWordsGo, if_neg ha]
      exact ih (a :: acc) (by simp)

theorem pyWords_pyStrip_ne_nil (s : List Char) (h : (pyStrip s).isEmpty = false) :
    pyWords (pyStrip s) ≠ [] := by
  cases hps : pyStrip s with
  | nil => rw [hps] at h; simp at h
  | cons c rest =>
    have hc := pyStrip_head_not_space s c rest hps
    show pyWordsGo [] (c :: rest) ≠ []
    have hstep : pyWordsGo [] (c :: rest) = pyWordsGo [c] rest := by
      simp [pyWordsGo, hc]
    rw [hstep]
    exact pyWordsGo_ne_nil rest [c] (by simp)

theorem cleanCore_no_term (t : List Char) (h : firstSegNonBlank t = true) :
    ∀ c ∈ cleanCore t, sentenceTerm c = false := by
  cases hsp : reSplitSent t with
  | nil =>
    unfold firstSegNonBlank at h
    rw [hsp] at h
    exact absurd h (by simp)
  | cons s0 rest =>
    have h' : (pyStrip s0).isEmpty = false := by
      unfold firstSegNonBlank at h
      rw [hsp] at h
      simpa using h
    intro c hc
    unfold cleanCore at hc
    rw [hsp] at hc
    simp [h'] at hc
    cases hw : pyWords (pyStrip s0) with
    | nil => exact absurd hw (pyWords_pyStrip_ne_nil s0 h')
    | cons w ws =>
      rw [hw] at hc
      have hc' : c ∈ joinSep spaceSep (repairWords (w :: ws)) := hc
      rcases mem_joinSep spaceSep (repairWords (w :: ws)) c hc' with hsep | ⟨wx, hwx, hcx⟩
      · simp [spaceSep] at hsep
        subst hsep
        decide
      · have hwx2 : wx ∈ pyWords (pyStrip s0) := by
          rw [hw]
          exact mem_repairWords (w :: ws) wx hwx
        have hc0 : c ∈ pyStrip s0 := mem_pyWords (pyStrip s0) wx c hwx2 hcx
        have hcs : c ∈ s0 := mem_pyStrip s0 c hc0
        have hmem : s0 ∈ reSplitSent t := by
          rw [hsp]
          exact List.mem_cons_self s0 rest
        rcases splitTermRuns_mem_false t false [] s0 c hmem hcs with habs | hok
        · simp at habs
        · exact hok

theorem cleanCore_nonblank (t : List Char) (h : firstSegNonBlank t = true) :
    cleanCore t =
      joinSep spaceSep (repairWords (pyWords (pyStrip ((reSplitSent t).headD [])))) := by
  cases hsp : reSplitSent t with
  | nil =>
    unfold firstSegNonBlank at h
    rw [hsp] at h
    exact absurd h (by simp)
  | cons s0 rest =>
    have h' : (pyStrip s0).isEmpty = false := by
      unfold firstSegNonBlank at h
      rw [hsp] at h
      simpa using h
    unfold cleanCore
    rw [hsp]
    cases hw : pyWords (pyStrip s0) with
    | nil => exact absurd hw (pyWords_pyStrip_ne_nil s0 h')
    | cons w ws =>
      simp [h', hw]

theorem cleanCore_blank (t : List Char) (h : firstSegNonBlank t = false) :
    cleanCore t = pyStrip t := by
  cases hsp : reSplitSent t with
  | nil =>
    unfold cleanCore
    rw [hsp]
  | cons s0 rest =>
    have h' : (pyStrip s0).isEmpty = true := by
      unfold firstSegNonBlank at h
      rw [hsp] at h
      simpa using h
    unfold cleanCore
    rw [hsp]
    simp [h']

theorem mem_stepPred (input_text : List Char) (acc : List (List Char))
    (raw : List Char) (cand : List Char) (h : cand ∈ stepPred input_text acc raw) :
    cand ∈ acc ∨ cand = clean_generated_text raw input_text := by
  simp only [stepPred] at h
  split at h
  · rcases List.mem_append.mp h with h1 | h1
    · exact Or.inl h1
    · simp at h1
      exact Or.inr h1
  · exact Or.inl h

theorem predLoop_mem (input_text : List Char) (num : Nat)
    (att : Nat → Option (List Char)) :
    ∀ fuel i acc res u, predLoop input_text num att i fuel acc = RunOutcome.ok res u →
      ∀ cand ∈ res, cand ∈ acc ∨
        ∃ j raw, att j = some raw ∧ cand = clean_generated_text raw input_text := by
  intro fuel
  induction fuel with
  | zero =>
    intro i acc res u h cand hc
    simp only [predLoop] at h
    injection h with e1 e2
    subst e1
    exact Or.inl hc
  | succ f ih =>
    intro i acc res u h cand hc
    simp only [predLoop] at h
    cases ha : att i with
    | none => rw [ha] at h; exact absurd h (by simp)
    | some raw =>
      rw [ha] at h
      simp only at h
      by_cases hnum : num ≤ (stepPred input_text acc raw).length
      · rw [if_pos hnum] at h
        injection h with e1 e2
        subst e1
        rcases mem_stepPred input_text acc raw cand hc with h1 | h1
        · exact Or.inl h1
        · exact Or.inr ⟨i, raw, ha, h1⟩
      · rw [if_neg hnum] at h
        rcases ih (i + 1) (stepPred input_text acc raw) res u h cand hc with h1 | h1
        · rcases mem_stepPred input_text acc raw cand h1 with h2 | h2
          · exact Or.inl h2
          · exact Or.inr ⟨i, raw, ha, h2⟩
        · exact Or.inr h1

/-! Helper lemmas about the story filter's segment selection. -/

theorem keptSegments_le (t : List Char) :
    (keptSegments t).length ≤ (reSplitSent t).length := by
  unfold keptSegments
  have h1 := List.length_filter_le (fun s => !s.isEmpty) (((reSplitSent t).take 4).map pyStrip)
  have h2 : (((reSplitSent t).take 4).map pyStrip).length = ((reSplitSent t).take 4).length := by
    simp
  have h3 : ((reSplitSent t).take 4).length ≤ (reSplitSent t).length := by
    rw [List.length_take]
    omega
  omega

theorem storyCore_none_iff (t : List Char) :
    storyCore t = none ↔ (keptSegments t).length < 2 := by
  simp only [storyCore]
  by_cases h1 : (reSplitSent t).length < 2
  · rw [if_pos h1]
    have h2 : (keptSegments t).length < 2 := by
      have := keptSegments_le t
      omega
    simp [h2]
  · rw [if_neg h1]
    by_cases h2 : ((((reSplitSent t).take 4).map pyStrip).filter (fun s => !s.isEmpty)).length < 2
    · rw [if_pos h2]
      have h2k : (keptSegments t).length < 2 := h2
      simp [h2k]
    · rw [if_neg h2]
      have h2k : ¬ (keptSegments t).length < 2 := h2
      simp [h2k]

theorem storyCore_some (t : List Char) (s : List Char) (h : storyCore t = some s) :
    s = joinSep periodSep (keptSegments t) ++ ['.'] := by
  simp only [storyCore] at h
  by_cases h1 : (reSplitSent t).length < 2
  · rw [if_pos h1] at h
    exact absurd h (by simp)
  · rw [if_neg h1] at h
    by_cases h2 : ((((reSplitSent t).take 4).map pyStrip).filter (fun s => !s.isEmpty)).length < 2
    · rw [if_pos h2] at h
      exact absurd h (by simp)
    · rw [if_neg h2] at h
      injection h with h
      exact h.symm

/-! Result-level glue lemmas. -/

theorem generate_predictions_nodup (s : Session) (eo : Bool) (input_text : List Char)
    (num : Nat) (att : Nat → Option (List Char)) :
    (generate_predictions s eo input_text num att).Nodup := by
  unfold generate_predictions
  split_ifs with h1 h2
  · exact List.nodup_nil
  · exact List.nodup_nil
  · cases hr : runPredictions input_text num att with
    | ok preds u =>
      have hn : preds.Nodup := by
        have hall := predLoop_nodup input_text num att (num * 2) 0 [] List.nodup_nil
        unfold runPredictions at hr
        rw [hr] at hall
        simpa [RunOutcome.preds] using hall
      exact hn.sublist (List.take_sublist num preds)
    | err u => exact List.nodup_nil

theorem generate_stories_nodup (eo : Bool) (input_text : List Char)
    (num : Nat) (att : Nat → Option (List Char)) :
    (generate_stories eo input_text num att).Nodup := by
  unfold generate_stories
  split_ifs with h1
  · exact List.nodup_nil
  · cases hr : runStories input_text num att with
    | ok stories u =>
      have hn : stories.Nodup := by
        have hall := storyLoop_nodup input_text num att (num * 2) 0 [] List.nodup_nil
        unfold runStories at hr
        rw [hr] at hall
        simpa [RunOutcome.preds] using hall
      exact hn.sublist (List.take_sublist num stories)
    | err u => exact List.nodup_nil

/-! Claim theorems. -/

/-- Claim C1 counterexample: with an oracle whose first attempt yields an
accepted candidate and whose second attempt raises, a 2-candidate request
returns `[]` and stops after 2 of its 4 budgeted attempts: the candidate
accepted before the failing attempt is NOT still returned and the loop
does NOT continue with the remaining attempts, refuting the claim at this
concrete input (the 1-candidate run shows attempt 0 alone is accepted). -/
theorem C1_counterexample :
    generate_predictions okSession true inputStory 1 attFail = [candStory] ∧
    generate_predictions okSession true inputStory 2 attFail = [] ∧
    predAttemptsUsed okSession true inputStory 2 attFail = 2 := by
  refine ⟨by decide, by decide, by decide⟩

/-- Claim C1 amended: when a raw generation attempt (or the initial
encoding) raises, the orchestrator of either mode catches the error and
returns `[]` for the whole request — previously accepted candidates are
discarded and the remaining attempts are skipped (the failing attempt
count stays within the `2 × num` budget); the error never propagates to
the caller. -/
theorem C1_amended :
    (∀ (s : Session) (input_text : List Char) (num : Nat)
        (att : Nat → Option (List Char)) (u : Nat),
      runPredictions input_text num att = RunOutcome.err u →
        generate_predictions s true input_text num att = [] ∧ u ≤ num * 2) ∧
    (∀ (input_text : List Char) (num : Nat)
        (att : Nat → Option (List Char)) (u : Nat),
      runStories input_text num att = RunOutcome.err u →
        generate_stories true input_text num att = [] ∧ u ≤ num * 2) ∧
    (∀ (s : Session) (input_text : List Char) (num : Nat)
        (att : Nat → Option (List Char)),
      generate_predictions s false input_text num att = []) ∧
    (∀ (input_text : List Char) (num : Nat) (att : Nat → Option (List Char)),
      generate_stories false input_text num att = []) := by
  refine ⟨?_, ?_, ?_, ?_⟩
  · intro s input_text num att u h
    refine ⟨?_, ?_⟩
    · unfold generate_predictions
      split_ifs with h1 h2
      · rfl
      · rfl
      · rw [h]
    · have hle := predLoop_used_le input_text num att (num * 2) 0 []
      unfold runPredictions at h
      rw [h] at hle
      simpa [RunOutcome.used] using hle
  · intro input_text num att u h
    refine ⟨?_, ?_⟩
    · show (match runStories input_text num att with
        | RunOutcome.ok stories _ => stories.take num
        | RunOutcome.err _ => []) = []
      rw [h]
    · have hle := storyLoop_used_le input_text num att (num * 2) 0 []
      unfold runStories at h
      rw [h] at hle
      simpa [RunOutcome.used] using hle
  · intro s input_text num att
    simp [generate_predictions]
  · intro input_text num att
    simp [generate_stories]

/-- Claim C1 witness: the amended theorem applied to the concrete failing
oracle. -/
theorem C1_witness :
    generate_predictions okSession true inputStory 2 attFail = [] ∧ 2 ≤ 2 * 2 :=
  C1_amended.1 okSession inputStory 2 attFail 2 (by decide)

/-- Claim C2 counterexample: in story mode with `num = 1` the first
attempt already yields the single needed accepted story, yet the loop
performs a second sampling call — `generate_stories` has no early break —
refuting the early-stop half of the claim at this concrete input. -/
theorem C2_counterexample :
    storyAccumulate inputKing attKing 1 = some [storyKing] ∧
    generate_stories true inputKing 1 attKing = [storyKing] ∧
    storyAttemptsUsed true inputKing 1 attKing = 2 := by
  refine ⟨by decide, by decide, by decide⟩

/-- Claim C2 amended: both modes make at most `2 × num` raw attempts;
`generate_predictions` stops early as soon as `num` candidates are
collected (if the pure replay of its acceptance reaches `num` after `j`
attempts then at most `j` attempts are used), but `generate_stories` has
no early stop: every exception-free run consumes exactly `2 × num`
attempts, truncating the result to `num` only at the end. -/
theorem C2_amended :
    (∀ (s : Session) (eo : Bool) (input_text : List Char) (num : Nat)
        (att : Nat → Option (List Char)),
      predAttemptsUsed s eo input_text num att ≤ 2 * num) ∧
    (∀ (eo : Bool) (input_text : List Char) (num : Nat)
        (att : Nat → Option (List Char)),
      storyAttemptsUsed eo input_text num att ≤ 2 * num) ∧
    (∀ (input_text : List Char) (num : Nat) (att : Nat → Option (List Char))
        (j : Nat) (acc : List (List Char)),
      predAccumulate input_text att j = some acc → num ≤ acc.length →
        predAttemptsUsed okSession true input_text num att ≤ j) ∧
    (∀ (input_text : List Char) (num : Nat) (att : Nat → Option (List Char))
        (res : List (List Char)) (u : Nat),
      runStories input_text num att = RunOutcome.ok res u → u = 2 * num) := by
  refine ⟨?_, ?_, ?_, ?_⟩
  · intro s eo input_text num att
    unfold predAttemptsUsed
    split_ifs with h1 h2
    · omega
    · omega
    · have := predLoop_used_le input_text num att (num * 2) 0 []
      unfold runPredictions
      omega
  · intro eo input_text num att
    unfold storyAttemptsUsed
    split_ifs with h1
    · omega
    · have := storyLoop_used_le input_text num att (num * 2) 0 []
      unfold runStories
      omega
  · intro input_text num att j acc hj hlen
    show (runPredictions input_text num att).used ≤ j
    cases Nat.eq_zero_or_pos num with
    | inl h0 =>
      subst h0
      show (predLoop input_text 0 att 0 (0 * 2) []).used ≤ j
      simp [predLoop, RunOutcome.used]
    | inr hpos =>
      have hj' : predAccumulate input_text att (0 + j) = some acc := by
        rw [Nat.zero_add]
        exact hj
      have := predLoop_earlystop input_text num att j (num * 2) 0 [] acc rfl
        (by simpa using hpos) hj' hlen
      simpa using this
  · intro input_text num att res u h
    have := storyLoop_ok_used input_text num att (num * 2) 0 [] res u h
    omega

/-- Claim C2 witness: the amended theorem applied at concrete inputs. -/
theorem C2_witness :
    predAttemptsUsed okSession true inputKing 2 attKing ≤ 2 * 2 ∧
    storyAttemptsUsed true inputKing 2 attKing ≤ 2 * 2 ∧
    predAttemptsUsed okSession true inputStory 1 attRepeat ≤ 1 ∧
    2 = 2 * 1 :=
  ⟨C2_amended.1 okSession true inputKing 2 attKing,
   C2_amended.2.1 true inputKing 2 attKing,
   C2_amended.2.2.1 inputStory 1 attRepeat 1 [candStory] (by decide) (by decide),
   C2_amended.2.2.2 inputKing 1 attKing [storyKing] 2 (by decide)⟩

/-- Claim C3 counterexample: `generate_stories` removes the prompt by an
unconditional character-count slice; on a decoded text that does not start
with the prompt the filter operates on a mid-word chopped text, not on the
full decoded text unchanged, refuting the claim at this concrete input. -/
theorem C3_counterexample :
    List.isPrefixOf promptHello rawCats = false ∧
    storyClean rawCats promptHello = some cutStory ∧
    storyCore rawCats = some fullStory ∧
    cutStory ≠ fullStory := by
  refine ⟨by decide, by decide, by decide, by decide⟩

/-- Claim C3 amended: in single-sentence mode the prompt is stripped from
the front exactly when the decoded text starts with the exact prompt
string, and otherwise the full decoded text is processed unchanged; in
story mode the first `len(prompt)` characters are removed unconditionally,
with no prefix check. -/
theorem C3_amended :
    (∀ text input_text : List Char, List.isPrefixOf input_text text = false →
        clean_generated_text text input_text = cleanCore text) ∧
    (∀ text input_text : List Char, List.isPrefixOf input_text text = true →
        clean_generated_text text input_text =
          cleanCore (pyStrip (text.drop input_text.length))) ∧
    (∀ raw input_text : List Char,
        storyClean raw input_text = storyCore (pyStrip (raw.drop input_text.length))) := by
  refine ⟨?_, ?_, fun raw input_text => rfl⟩
  · intro text input_text h
    unfold clean_generated_text prefixHandled
    rw [h]
    simp
  · intro text input_text h
    unfold clean_generated_text prefixHandled
    rw [h]
    simp

/-- Claim C3 witness: the amended theorem applied at concrete inputs. -/
theorem C3_witness :
    clean_generated_text bangText promptHello = cleanCore bangText ∧
    clean_generated_text rawStory inputStory =
      cleanCore (pyStrip (rawStory.drop inputStory.length)) :=
  ⟨C3_amended.1 bangText promptHello (by decide),
   C3_amended.2.1 rawStory inputStory (by decide)⟩

/-- Claim C4 counterexample: when the decoded text starts with a
terminator, the filter's fallback returns the whole stripped text, which
is accepted by the length and word-count checks although it contains
`!` and `.` — refuting the claim at this concrete input. -/
theorem C4_counterexample :
    generate_predictions okSession true promptHello 1 attBang = [bangText] ∧
    bangText.any sentenceTerm = true := by
  refine ⟨by decide, by decide⟩

/-- Claim C4 amended: every accepted single-sentence candidate contains no
sentence-terminator character PROVIDED every decoded attempt has a
non-blank first terminator-delimited segment after prompt handling; when
that first segment is blank, the filter falls back to the full stripped
text, which may contain terminators. -/
theorem C4_amended :
    ∀ (s : Session) (input_text : List Char) (num : Nat)
      (att : Nat → Option (List Char)),
      (∀ i raw, att i = some raw →
        firstSegNonBlank (prefixHandled raw input_text) = true) →
      (generate_predictions s true input_text num att).all
        (fun cand => cand.all (fun c => !sentenceTerm c)) = true := by
  intro s input_text num att hatt
  have hmemP : ∀ cand, cand ∈ generate_predictions s true input_text num att →
      ∀ c ∈ cand, sentenceTerm c = false := by
    intro cand hcand
    unfold generate_predictions at hcand
    split_ifs at hcand with h1 h2
    · exact absurd hcand (List.not_mem_nil cand)
    · exact absurd hcand (List.not_mem_nil cand)
    · cases hr : runPredictions input_text num att with
      | err u =>
        rw [hr] at hcand
        exact absurd hcand (List.not_mem_nil cand)
      | ok preds u =>
        rw [hr] at hcand
        have hmem : cand ∈ preds := List.mem_of_mem_take hcand
        rcases predLoop_mem input_text num att (num * 2) 0 [] preds u hr cand hmem with
          habs | ⟨j, raw, hj, hcl⟩
        · exact absurd habs (List.not_mem_nil cand)
        · intro c hc
          rw [hcl] at hc
          exact cleanCore_no_term (prefixHandled raw input_text) (hatt j raw hj) c hc
  rw [List.all_eq_true]
  intro cand hcand
  rw [List.all_eq_true]
  intro c hc
  rw [Bool.not_eq_true']
  exact hmemP cand hcand c hc

/-- Claim C4 witness: the amended theorem applied to a concrete oracle
whose attempts all have a non-blank first segment. -/
theorem C4_witness :
    (generate_predictions okSession true inputStory 1 attRepeat).all
      (fun cand => cand.all (fun c => !sentenceTerm c)) = true := by
  apply C4_amended okSession inputStory 1 attRepeat
  intro i raw h
  have hraw : rawStory = raw := by
    simpa [attRepeat] using h
  rw [← hraw]
  decide

/-- Claim C5 counterexample: with the prompt `The` and the decoded text
`TheThe cat ran home`, the accepted candidate is `The cat ran home`, which
begins with the exact original prompt string — refuting the claim at this
concrete input. -/
theorem C5_counterexample :
    generate_predictions okSession true promptThe 1 attThe = [candThe] ∧
    List.isPrefixOf promptThe candThe = true := by
  refine ⟨by decide, by decide⟩

/-- Claim C5 amended: each mode removes one leading occurrence of the
prompt before filtering — when the decoded text starts with the prompt the
candidate is computed purely from the continuation after it (equivalently,
from the remainder with an empty prompt) — but the resulting candidate may
itself still begin with text equal to the prompt. -/
theorem C5_amended :
    (∀ raw input_text : List Char, List.isPrefixOf input_text raw = true →
        clean_generated_text raw input_text =
          clean_generated_text (raw.drop input_text.length) []) ∧
    (∀ raw input_text : List Char,
        storyClean raw input_text = storyClean (raw.drop input_text.length) []) := by
  constructor
  · intro raw input_text h
    unfold clean_generated_text prefixHandled
    rw [h]
    have hnil : List.isPrefixOf ([] : List Char) (raw.drop input_text.length) = true := by
      simp [List.isPrefixOf]
    rw [hnil]
    simp
  · intro raw input_text
    unfold storyClean
    simp

/-- Claim C5 witness: the amended theorem applied at concrete inputs. -/
theorem C5_witness :
    clean_generated_text rawThe promptThe =
      clean_generated_text (rawThe.drop promptThe.length) [] ∧
    storyClean rawKing inputKing = storyClean (rawKing.drop inputKing.length) [] :=
  ⟨C5_amended.1 rawThe promptThe (by decide), C5_amended.2 rawKing inputKing⟩

/-- Claim C6: in both modes no two returned candidates are equal — the
result is duplicate-free and its length equals that of its de-duplicated
form — and the accepted list agrees with the chronological replay of the
acceptance loop (first-accepted-first order). -/
theorem C6_no_duplicates :
    (∀ (s : Session) (eo : Bool) (input_text : List Char) (num : Nat)
        (att : Nat → Option (List Char)),
      (generate_predictions s eo input_text num att).Nodup ∧
      (generate_predictions s eo input_text num att).dedup.length =
        (generate_predictions s eo input_text num att).length) ∧
    (∀ (eo : Bool) (input_text : List Char) (num : Nat)
        (att : Nat → Option (List Char)),
      (generate_stories eo input_text num att).Nodup ∧
      (generate_stories eo input_text num att).dedup.length =
        (generate_stories eo input_text num att).length) ∧
    (∀ (input_text : List Char) (num : Nat) (att : Nat → Option (List Char))
        (res : List (List Char)) (u : Nat),
      runPredictions input_text num att = RunOutcome.ok res u →
        predAccumulate input_text att u = some res) ∧
    (∀ (input_text : List Char) (num : Nat) (att : Nat → Option (List Char))
        (res : List (List Char)) (u : Nat),
      runStories input_text num att = RunOutcome.ok res u →
        storyAccumulate input_text att u = some res) := by
  refine ⟨?_, ?_, ?_, ?_⟩
  · intro s eo input_text num att
    have h := generate_predictions_nodup s eo input_text num att
    exact ⟨h, by rw [List.dedup_eq_self.mpr h]⟩
  · intro eo input_text num att
    have h := generate_stories_nodup eo input_text num att
    exact ⟨h, by rw [List.dedup_eq_self.mpr h]⟩
  · intro input_text num att res u h
    exact predLoop_replay input_text num att (num * 2) 0 [] res u rfl h
  · intro input_text num att res u h
    exact storyLoop_replay input_text num att (num * 2) 0 [] res u rfl h

/-- Claim C6 witness: the theorem applied at concrete inputs. -/
theorem C6_witness :
    (generate_predictions okSession true inputStory 2 attRepeat).Nodup ∧
    predAccumulate inputStory attRepeat 1 = some [candStory] :=
  ⟨(C6_no_duplicates.1 okSession true inputStory 2 attRepeat).1,
   C6_no_duplicates.2.2.1 inputStory 1 attRepeat [candStory] 1 (by decide)⟩

/-- Claim C7 counterexample: on a text whose FIRST raw segment is empty,
`clean_generated_text` does not take the first non-empty segment (which
would give `buy milk and bread`) but falls back to the whole stripped
text, `! buy milk and bread` — refuting the claim's general sentence at
this concrete input. -/
theorem C7_counterexample :
    clean_generated_text textC7 promptStore = textC7 ∧
    ((reSplitSent textC7).filter (fun s => !(pyStrip s).isEmpty)).headD [] =
      (' ' :: claimSegC7) ∧
    textC7 ≠ claimSegC7 ∧
    textC7.any sentenceTerm = true := by
  refine ⟨by decide, by decide, by decide, by decide⟩

/-- Claim C7 amended: single-sentence cleaning takes the FIRST raw segment
provided it is non-blank (not the first non-empty segment), drops its
trailing word when shorter than 2 characters or not purely alphabetic, and
joins the remaining words with single spaces; when the first segment is
blank, the whole stripped text is returned unchanged as a fallback. The
`br3ad` scenario yields `buy milk and` and the `bread` scenario yields
`buy milk and bread`. -/
theorem C7_amended :
    clean_generated_text rawBr3ad promptStore = resBr3ad ∧
    clean_generated_text rawBread promptStore = resBread ∧
    (∀ text input_text : List Char,
      firstSegNonBlank (prefixHandled text input_text) = true →
        clean_generated_text text input_text =
          joinSep spaceSep (repairWords (pyWords (pyStrip
            ((reSplitSent (prefixHandled text input_text)).headD []))))) ∧
    (∀ text input_text : List Char,
      firstSegNonBlank (prefixHandled text input_text) = false →
        clean_generated_text text input_text = pyStrip (prefixHandled text input_text)) := by
  refine ⟨by decide, by decide, ?_, ?_⟩
  · intro text input_text h
    exact cleanCore_nonblank (prefixHandled text input_text) h
  · intro text input_text h
    exact cleanCore_blank (prefixHandled text input_text) h

/-- Claim C7 witness: the amended theorem applied at concrete inputs. -/
theorem C7_witness :
    clean_generated_text rawBread promptStore =
      joinSep spaceSep (repairWords (pyWords (pyStrip
        ((reSplitSent (prefixHandled rawBread promptStore)).headD [])))) ∧
    clean_generated_text textC7 promptStore = pyStrip (prefixHandled textC7 promptStore) :=
  ⟨C7_amended.2.2.1 rawBread promptStore (by decide),
   C7_amended.2.2.2 textC7 promptStore (by decide)⟩

/-- Claim C8 counterexample: on a prompt-stripped text beginning with a
terminator, the source keeps the non-empty segments among the FIRST 4 raw
segments (3 of them here), not the first 4 non-empty segments (4 here), so
the built story differs from the claim's — refuting the claim at this
concrete input. -/
theorem C8_counterexample :
    storyClean rawFourSegs promptOnce = some keptThree ∧
    storyCoreSpecC8 (pyStrip (rawFourSegs.drop promptOnce.length)) = some keptFour ∧
    keptThree ≠ keptFour := by
  refine ⟨by decide, by decide, by decide⟩

/-- Claim C8 amended: the story filter keeps the non-empty stripped
segments among the FIRST 4 raw segments; a raw completion is rejected
exactly when fewer than 2 such segments exist (which also makes the raw
`len(sentences) >= 2` check redundant for the outcome); every built story
is the kept segments re-joined with a period-plus-space separator plus a
trailing period; and a completion with a single non-empty segment is
rejected entirely. -/
theorem C8_amended :
    (∀ t : List Char, storyCore t = none ↔ (keptSegments t).length < 2) ∧
    (∀ t s : List Char, storyCore t = some s →
        s = joinSep periodSep (keptSegments t) ++ ['.']) ∧
    storyClean rawOneSeg promptNight = none ∧
    (keptSegments (pyStrip (rawOneSeg.drop promptNight.length))).length = 1 :=
  ⟨storyCore_none_iff, storyCore_some, by decide, by decide⟩

/-- Claim C8 witness: the amended theorem applied at a concrete input. -/
theorem C8_witness :
    storyKing = joinSep periodSep
      (keptSegments (pyStrip (rawKing.drop inputKing.length))) ++ ['.'] :=
  C8_amended.2.1 (pyStrip (rawKing.drop inputKing.length)) storyKing (by decide)

set_option maxRecDepth 8000 in
/-- Claim C9: `validate_input` accepts exactly the strings whose trimmed
form is non-empty with length between 3 and 200, returning `(True, "")`,
and returns exactly the four specified results on `""`, `"Hi"`,
`"This is a good sentence"` and `"A" * 250`. -/
theorem C9_validate :
    (∀ text : List Char,
      validate_input text = (true, ([] : List Char)) ↔
        ((pyStrip text).isEmpty = false ∧ 3 ≤ (pyStrip text).length ∧
          (pyStrip text).length ≤ 200)) ∧
    validate_input [] = (false, msgEmpty) ∧
    validate_input hiText = (false, msgShort) ∧
    validate_input goodText = (true, []) ∧
    validate_input longAs = (false, msgLong) := by
  refine ⟨?_, by decide, by decide, by decide, by decide⟩
  intro text
  unfold validate_input
  by_cases h1 : (text.isEmpty || (pyStrip text).isEmpty) = true
  · rw [if_pos h1]
    constructor
    · intro habs
      exact absurd habs (by simp)
    · rintro ⟨hs, h3, h4⟩
      rw [Bool.or_eq_true] at h1
      rcases h1 with h1 | h1
      · cases text with
        | nil => exact absurd hs (by decide)
        | cons a as => simp at h1
      · rw [h1] at hs
        exact absurd hs (by simp)
  · rw [if_neg h1]
    simp only [Bool.or_eq_true, not_or, Bool.not_eq_true] at h1
    by_cases h2 : (pyStrip text).length < 3
    · rw [if_pos h2]
      constructor
      · intro habs
        exact absurd habs (by simp)
      · rintro ⟨_, h3, _⟩
        omega
    · rw [if_neg h2]
      by_cases h3 : 200 < (pyStrip text).length
      · rw [if_pos h3]
        constructor
        · intro habs
          exact absurd habs (by simp)
        · rintro ⟨_, _, h4⟩
          omega
      · rw [if_neg h3]
        constructor
        · intro _
          exact ⟨h1.2, by omega, by omega⟩
        · intro _
          rfl

/-- Claim C9 witness: the acceptance characterisation applied to the valid
concrete input. -/
theorem C9_witness : validate_input goodText = (true, ([] : List Char)) :=
  (C9_validate.1 goodText).mpr (by decide)

/-- Claim C10: when the session's model or tokenizer is `None`,
`generate_predictions` returns `[]` immediately, making no sampling
attempt and raising nothing; and `load_model` reports a load failure by
returning `false` with the failed handle left at `None`, succeeding only
when both fetches succeed. -/
theorem C10_model_guard :
    (∀ (s : Session) (eo : Bool) (input_text : List Char) (num : Nat)
        (att : Nat → Option (List Char)),
      (s.model = none ∨ s.tokenizer = none) →
        generate_predictions s eo input_text num att = [] ∧
        predAttemptsUsed s eo input_text num att = 0) ∧
    (∀ ft fm : Except Unit Unit,
      ((load_model ft fm).2 = true ↔ ft = Except.ok () ∧ fm = Except.ok ()) ∧
      ((load_model ft fm).2 = false →
        (load_model ft fm).1.model = none ∨ (load_model ft fm).1.tokenizer = none)) := by
  constructor
  · intro s eo input_text num att h
    have hg : (s.model.isNone || s.tokenizer.isNone) = true := by
      rcases h with h | h <;> simp [h]
    constructor
    · unfold generate_predictions
      rw [if_pos hg]
    · unfold predAttemptsUsed
      rw [if_pos hg]
  · intro ft fm
    cases ft with
    | error e =>
      cases e
      cases fm with
      | error e2 =>
        cases e2
        exact ⟨by simp [load_model], fun _ => Or.inl rfl⟩
      | ok u =>
        cases u
        exact ⟨by simp [load_model], fun _ => Or.inl rfl⟩
    | ok u =>
      cases u
      cases fm with
      | error e2 =>
        cases e2
        exact ⟨by simp [load_model], fun _ => Or.inl rfl⟩
      | ok u2 =>
        cases u2
        exact ⟨by simp [load_model], fun h => absurd h (by simp [load_model])⟩

/-- Claim C10 witness: the guard applied to a session with both handles
`None`. -/
theorem C10_witness :
    generate_predictions ⟨none, none⟩ true inputStory 3 attRepeat = [] ∧
    predAttemptsUsed ⟨none, none⟩ true inputStory 3 attRepeat = 0 :=
  C10_model_guard.1 ⟨none, none⟩ true inputStory 3 attRepeat (Or.inl rfl)

end StoryGen
